import Mathlib

/-!
Verification of the attribute-extraction utility and adapter classes of the
pycom repository (a Python façade over the Outlook COM automation surface).

Shallow embedding conventions:
- A Python value is `Option α`: `Option.none` is Python `None`, `some a` any
  other value (`α` is an arbitrary value universe).
- A source object (read via `getattr`) is a function from attribute names to
  `Except ε (Option α)`: `.error e` models the read raising exception `e`,
  `.ok v` models the read returning the Python value `v`.
- A destination object's attribute state is a function from attribute names to
  `Option (Option α)`: `Option.none` means the attribute is not defined,
  `some v` means it is defined and holds the Python value `v`.
- The attribute map (a Python `dict[str, str]`, iterated in insertion order)
  is an association list of (source name, destination name) pairs.
-/

/-- The attribute state of a destination object: for each attribute name,
either undefined (`none`) or defined with a Python value (`some v`). -/
def ObjState (α : Type) : Type := String → Option (Option α)

/-- A source object, accessed only through `getattr` by name: each read either
raises an exception of type `ε` or returns a Python value. -/
def Source (α ε : Type) : Type := String → Except ε (Option α)

/-- Python `setattr(obj, name, v)`: (re)binds attribute `name` to value `v`. -/
def setattr (d : ObjState α) (name : String) (v : Option α) : ObjState α :=
  fun n => if n = name then some v else d n

/-- The value the extraction loop body computes for one map entry:
`try: value = getattr(from_object, f)` / `except: value = None`
(src/utils.py lines 28-31). -/
def readValue (S : Source α ε) (f : String) : Option α :=
  match S f with
  | Except.ok v => v
  | Except.error _ => Option.none

/-- Embedding of `extract_attributes(to_object, from_object, attrs_map)`
(src/utils.py lines 5-33): for each `(from_attr_name, to_attr_name)` pair in
map order, read the source attribute (substituting `None` if the read raises)
and unconditionally set the destination attribute to the result. Returns the
final destination attribute state. -/
def extract_attributes (d : ObjState α) (S : Source α ε) :
    List (String × String) → ObjState α
  | [] => d
  | (f, t) :: rest => extract_attributes (setattr d t (readValue S f)) S rest

/-- The same loop, written in the exception monad in which `getattr` raises:
the `try`/`except` of src/utils.py lines 28-31 catches every exception, so the
computation as a whole lives in `Except ε` but (as proved below) never ends in
`.error`. -/
def extract_attributes_run (d : ObjState α) (S : Source α ε) :
    List (String × String) → Except ε (ObjState α)
  | [] => Except.ok d
  | (f, t) :: rest =>
    let value : Option α :=
      match S f with
      | Except.ok v => v
      | Except.error _ => Option.none
    extract_attributes_run (setattr d t value) S rest

/-- One primitive attribute operation performed during extraction: a read of a
source attribute, a write of a source attribute, or a write of a destination
attribute. (The extraction loop never performs a source write; the constructor
exists so that this absence is expressible.) -/
inductive AttrOp (α : Type) where
  | readSource (name : String)
  | writeSource (name : String) (v : Option α)
  | writeDest (name : String) (v : Option α)
deriving DecidableEq

/-- The sequence of attribute operations the extraction loop performs: per map
entry, one `getattr` on the source followed by one `setattr` on the
destination (src/utils.py lines 27-32). -/
def extractTrace (S : Source α ε) : List (String × String) → List (AttrOp α)
  | [] => []
  | (f, t) :: rest =>
    AttrOp.readSource f :: AttrOp.writeDest t (readValue S f) :: extractTrace S rest

/-- The names of the source-attribute reads in a trace, in order. -/
def traceReads : List (AttrOp α) → List String
  | [] => []
  | AttrOp.readSource f :: rest => f :: traceReads rest
  | _ :: rest => traceReads rest

/-- The source name of the last map entry whose destination name is `t`, if
any: with last-write-wins semantics this entry determines the final value of
destination attribute `t`. -/
def lastSource : List (String × String) → String → Option String
  | [], _ => Option.none
  | (f, t') :: rest, t =>
    match lastSource rest t with
    | some f' => some f'
    | Option.none => if t' = t then some f else Option.none

-- Structural lemmas about the extraction loop

theorem setattr_self (d : ObjState α) (t : String) (v : Option α) :
    setattr d t v t = some v := by
  simp [setattr]

theorem setattr_other (d : ObjState α) (t n : String) (v : Option α)
    (h : n ≠ t) : setattr d t v n = d n := by
  simp [setattr, h]

/-- The final value of any destination attribute `t` after extraction: the
value computed for the last map entry targeting `t`, or the prior value when
no entry targets `t`. -/
theorem extract_attributes_apply (d : ObjState α) (S : Source α ε)
    (M : List (String × String)) (t : String) :
    extract_attributes d S M t =
      match lastSource M t with
      | some f => some (readValue S f)
      | Option.none => d t := by
  induction M generalizing d with
  | nil => rfl
  | cons p rest ih =>
    obtain ⟨f0, t0⟩ := p
    show extract_attributes (setattr d t0 (readValue S f0)) S rest t = _
    rw [ih]
    simp only [lastSource]
    cases h : lastSource rest t with
    | some f => simp
    | none =>
      by_cases ht : t0 = t
      · subst ht
        simp [setattr]
      · have ht' : t ≠ t0 := fun h' => ht h'.symm
        simp [setattr, ht, ht']

theorem lastSource_eq_none_iff (M : List (String × String)) (t : String) :
    lastSource M t = Option.none ↔ t ∉ M.map Prod.snd := by
  induction M with
  | nil => simp [lastSource]
  | cons p rest ih =>
    obtain ⟨f0, t0⟩ := p
    simp only [lastSource]
    cases h : lastSource rest t with
    | some f =>
      have hmem : t ∈ rest.map Prod.snd := by
        by_contra hc
        simp [ih.mpr hc] at h
      simp [hmem]
    | none =>
      have hnot : t ∉ rest.map Prod.snd := ih.mp h
      by_cases ht : t0 = t
      · subst ht
        simp
      · have ht' : t ≠ t0 := fun h' => ht h'.symm
        simp [ht, ht', hnot]

theorem lastSource_mem (M : List (String × String)) (t f : String)
    (h : lastSource M t = some f) : (f, t) ∈ M := by
  induction M with
  | nil => simp [lastSource] at h
  | cons p rest ih =>
    obtain ⟨f0, t0⟩ := p
    rw [lastSource] at h
    cases h' : lastSource rest t with
    | some f' =>
      rw [h'] at h
      injection h with hf
      subst hf
      exact List.mem_cons_of_mem _ (ih h')
    | none =>
      rw [h'] at h
      by_cases ht : t0 = t
      · rw [if_pos ht] at h
        injection h with hf
        subst hf
        subst ht
        exact List.mem_cons_self _ _
      · rw [if_neg ht] at h
        simp at h

theorem lastSource_isSome_of_mem (M : List (String × String)) (f t : String)
    (h : (f, t) ∈ M) : ∃ f', lastSource M t = some f' := by
  cases hl : lastSource M t with
  | some f' => exact ⟨f', rfl⟩
  | none =>
    have : t ∉ M.map Prod.snd := (lastSource_eq_none_iff M t).mp hl
    exact absurd (List.mem_map.mpr ⟨(f, t), h, rfl⟩) this

/-- With destination names pairwise distinct, the last (indeed only) map entry
targeting `t` is the unique entry `(f, t)` of the map. -/
theorem lastSource_eq_some_iff (M : List (String × String)) (t f : String)
    (hnodup : (M.map Prod.snd).Nodup) :
    lastSource M t = some f ↔ (f, t) ∈ M := by
  constructor
  · exact lastSource_mem M t f
  · intro hmem
    induction M with
    | nil => simp at hmem
    | cons p rest ih =>
      obtain ⟨f0, t0⟩ := p
      simp only [List.map_cons, List.nodup_cons] at hnodup
      rw [lastSource]
      rcases List.mem_cons.mp hmem with heq | hmem'
      · injection heq with hf ht
        subst hf
        subst ht
        have : t ∉ rest.map Prod.snd := hnodup.1
        rw [(lastSource_eq_none_iff rest t).mpr this]
        simp
      · have hl := ih hnodup.2 hmem'
        rw [hl]

/-- The monadic rendering of the loop never raises: the blanket
`try`/`except` of src/utils.py converts every source-read exception into a
`None` value, so the call as a whole returns normally with the same final
state as the pure rendering. -/
theorem extract_attributes_run_ok (d : ObjState α) (S : Source α ε)
    (M : List (String × String)) :
    extract_attributes_run d S M = Except.ok (extract_attributes d S M) := by
  induction M generalizing d with
  | nil => rfl
  | cons p rest ih =>
    obtain ⟨f0, t0⟩ := p
    show extract_attributes_run (setattr d t0 _) S rest = _
    rw [ih]
    rfl

/-- The source-attribute reads the loop performs are exactly the map's source
names, in map order: each mapped source attribute with a unique key is read
exactly once. -/
theorem extractTrace_reads (S : Source α ε) (M : List (String × String)) :
    traceReads (extractTrace S M) = M.map Prod.fst := by
  induction M with
  | nil => rfl
  | cons p rest ih =>
    obtain ⟨f0, t0⟩ := p
    simp only [extractTrace, traceReads, List.map_cons]
    rw [ih]

/-- The extraction loop performs no write to the source object. -/
theorem extractTrace_no_source_write (S : Source α ε)
    (M : List (String × String)) (n : String) (v : Option α) :
    AttrOp.writeSource n v ∉ extractTrace S M := by
  induction M with
  | nil => simp [extractTrace]
  | cons p rest ih =>
    obtain ⟨f0, t0⟩ := p
    simp only [extractTrace, List.mem_cons]
    rintro (h | h | h)
    · exact AttrOp.noConfusion h
    · exact AttrOp.noConfusion h
    · exact ih h

/-- Every map entry contributes exactly one destination write, carrying the
value computed for that entry (the read value, or `None` if the read raised). -/
theorem extractTrace_write_mem (S : Source α ε) (M : List (String × String))
    (f t : String) (hmem : (f, t) ∈ M) :
    AttrOp.writeDest t (readValue S f) ∈ extractTrace S M := by
  induction M with
  | nil => simp at hmem
  | cons p rest ih =>
    obtain ⟨f0, t0⟩ := p
    simp only [extractTrace, List.mem_cons]
    rcases List.mem_cons.mp hmem with heq | hmem'
    · injection heq with hf ht
      subst hf
      subst ht
      exact Or.inr (Or.inl rfl)
    · exact Or.inr (Or.inr (ih hmem'))

-- Embedding of Inbox.__init__ (src/inbox.py lines 102-169)

/-- The type-hint pre-initialization block of `Inbox.__init__`
(src/inbox.py lines 108-133): each listed attribute is assigned `None`. -/
def preInit (d : ObjState α) : List String → ObjState α
  | [] => d
  | n :: rest => preInit (setattr d n Option.none) rest

/-- The attribute names `Inbox.__init__` assigns `None` before its extraction
loop (src/inbox.py lines 108-133), in source order. -/
def inboxInitNames : List String :=
  ["address_book_name", "class_", "current_view", "custom_views_only",
   "default_item_type", "default_message_class", "description", "entry_id",
   "folder_path", "folders", "in_app_folder_sync_object",
   "is_sharepoint_folder", "items", "name", "parent", "property_accessor",
   "session", "show_as_outlook_ab", "show_item_count", "store", "store_id",
   "unread_item_count", "user_defined_properties", "views", "web_view_on",
   "web_view_url"]

/-- The `all_attrs` map of `Inbox.__init__` (src/inbox.py lines 135-161):
COM attribute name to snake_case destination name, in insertion order. -/
def inboxAllAttrs : List (String × String) :=
  [("AddressBookName", "address_book_name"),
   ("Class", "class_"),
   ("CurrentView", "current_view"),
   ("DefaultItemType", "default_item_type"),
   ("DefaultMessageClass", "default_message_class"),
   ("Description", "description"),
   ("EntryID", "entry_id"),
   ("FolderPath", "folder_path"),
   ("Folders", "folders"),
   ("InAppFolderSyncObject", "in_app_folder_sync_object"),
   ("IsSharePointFolder", "is_sharepoint_folder"),
   ("Items", "items"),
   ("Name", "name"),
   ("Parent", "parent"),
   ("PropertyAccessor", "property_accessor"),
   ("Session", "session"),
   ("ShowAsOutlookAB", "show_as_outlook_ab"),
   ("ShowItemCount", "show_item_count"),
   ("Store", "store"),
   ("StoreID", "store_id"),
   ("UnReadItemCount", "unread_item_count"),
   ("UserDefinedProperties", "user_defined_properties"),
   ("Views", "views"),
   ("WebViewOn", "web_view_on"),
   ("WebViewURL", "web_view_url")]

/-- The inline extraction loop of `Inbox.__init__` (src/inbox.py lines
162-168): read the COM attribute and set it on `self` inside a `try` block;
on any exception, `pass` (skip the assignment entirely). -/
def inboxLoop (d : ObjState α) (S : Source α ε) :
    List (String × String) → ObjState α
  | [] => d
  | (f, t) :: rest =>
    match S f with
    | Except.ok v => inboxLoop (setattr d t v) S rest
    | Except.error _ => inboxLoop d S rest

theorem preInit_not_mem (d : ObjState α) (names : List String) (t : String)
    (h : t ∉ names) : preInit d names t = d t := by
  induction names generalizing d with
  | nil => rfl
  | cons n rest ih =>
    show preInit (setattr d n Option.none) rest t = d t
    have hn : t ≠ n := fun heq => h (heq ▸ List.mem_cons_self n rest)
    have hrest : t ∉ rest := fun hm => h (List.mem_cons_of_mem n hm)
    rw [ih _ hrest, setattr_other d n t Option.none hn]

theorem preInit_mem (d : ObjState α) (names : List String) (t : String)
    (h : t ∈ names) : preInit d names t = some Option.none := by
  induction names generalizing d with
  | nil => simp at h
  | cons n rest ih =>
    show preInit (setattr d n Option.none) rest t = some Option.none
    by_cases hr : t ∈ rest
    · exact ih _ hr
    · have hn : t = n := by
        rcases List.mem_cons.mp h with heq | hm
        · exact heq
        · exact absurd hm hr
      subst hn
      rw [preInit_not_mem _ _ _ hr, setattr_self]

/-- Skip-on-failure equals write-`None`-on-failure once every destination
name in the map is currently bound to `None`: the inline `Inbox.__init__`
loop and `extract_attributes` produce the same final state. -/
theorem inboxLoop_eq_extract (d : ObjState α) (S : Source α ε)
    (M : List (String × String))
    (hnodup : (M.map Prod.snd).Nodup)
    (hinit : ∀ t ∈ M.map Prod.snd, d t = some Option.none) :
    inboxLoop d S M = extract_attributes d S M := by
  induction M generalizing d with
  | nil => rfl
  | cons p rest ih =>
    obtain ⟨f0, t0⟩ := p
    simp only [List.map_cons, List.nodup_cons] at hnodup
    have hd0 : d t0 = some Option.none := hinit t0 (by simp)
    show inboxLoop d S ((f0, t0) :: rest) = extract_attributes (setattr d t0 (readValue S f0)) S rest
    rw [inboxLoop]
    cases hS : S f0 with
    | ok v =>
      have hv : readValue S f0 = v := by simp [readValue, hS]
      rw [hv]
      exact ih (setattr d t0 v) hnodup.2 (fun t' ht' => by
        have hne : t' ≠ t0 := fun heq => hnodup.1 (heq ▸ ht')
        rw [setattr_other d t0 t' v hne]
        exact hinit t' (List.mem_cons_of_mem _ ht'))
    | error e =>
      have hv : readValue S f0 = Option.none := by simp [readValue, hS]
      rw [hv]
      have hset : setattr d t0 Option.none = d := by
        funext n
        by_cases hn : n = t0
        · subst hn
          rw [setattr_self, hd0]
        · exact setattr_other d t0 n Option.none hn
      rw [hset]
      exact ih d hnodup.2 (fun t' ht' => hinit t' (List.mem_cons_of_mem _ ht'))

-- Embedding of the OlAccountType enumeration (src/_enums.py lines 59-75)
-- and Account.account_type (src/account.py lines 91-96)

/-- A Python exception, as far as the embedded adapters distinguish them. -/
inductive PyExc where
  | ValueError
  | NotImplementedError (msg : String)
deriving DecidableEq

/-- The `OlAccountType` enumeration (src/_enums.py lines 59-75): the six
declared account-type members. -/
inductive OlAccountType where
  | EXCHANGE
  | IMAP
  | POP3
  | HTTP
  | EAS
  | OTHER_ACCOUNT
deriving DecidableEq

/-- The declared integer value of each `OlAccountType` member
(src/_enums.py lines 70-75). -/
def OlAccountType.value : OlAccountType → Int
  | OlAccountType.EXCHANGE => 0
  | OlAccountType.IMAP => 1
  | OlAccountType.POP3 => 2
  | OlAccountType.HTTP => 3
  | OlAccountType.EAS => 4
  | OlAccountType.OTHER_ACCOUNT => 5

/-- Python `Enum` construction by value, `OlAccountType(n)`: returns the member
declared with value `n`, or raises `ValueError` when no member has value `n`
(standard-library `Enum` lookup semantics over the values declared in
src/_enums.py lines 70-75). -/
def OlAccountType.ofValue (n : Int) : Except PyExc OlAccountType :=
  if n = 0 then Except.ok OlAccountType.EXCHANGE
  else if n = 1 then Except.ok OlAccountType.IMAP
  else if n = 2 then Except.ok OlAccountType.POP3
  else if n = 3 then Except.ok OlAccountType.HTTP
  else if n = 4 then Except.ok OlAccountType.EAS
  else if n = 5 then Except.ok OlAccountType.OTHER_ACCOUNT
  else Except.error PyExc.ValueError

/-- The COM state an `Account` wraps, as far as `Account.account_type` reads
it: the integer `AccountType` property of the underlying dispatch object. -/
structure AccountCom where
  AccountType : Int
deriving DecidableEq

/-- Embedding of the `Account.account_type` property (src/account.py lines
91-96): read the COM `AccountType` integer and construct `OlAccountType` from
it; the construction raises on an unrecognized integer and nothing in the
property catches that. -/
def Account.account_type (acct : AccountCom) : Except PyExc OlAccountType :=
  OlAccountType.ofValue acct.AccountType

-- Embedding of the Folder collection non-implementation
-- (src/folder.py lines 739-745)

/-- The list-like state of a `Folder` (a `UserList` subclass): the items it
eagerly fetched at construction time (src/folder.py lines 14 and 164-168). -/
structure Folder (α : Type) where
  data : List α
deriving DecidableEq

/-- Embedding of `Folder.__setitem__` (src/folder.py lines 741-742):
unconditionally raises `NotImplementedError`. -/
def Folder.setitem (self : Folder α) (index : Int) (value : α) :
    Except PyExc (Folder α) :=
  Except.error (PyExc.NotImplementedError "Setting/Deleting not implemented.")

/-- Embedding of `Folder.__delitem__` (src/folder.py lines 744-745):
unconditionally raises `NotImplementedError`. -/
def Folder.delitem (self : Folder α) (index : Int) :
    Except PyExc (Folder α) :=
  Except.error (PyExc.NotImplementedError "Setting/Deleting not implemented.")

-- Concrete fixtures used by the witness theorems (spec section 8 scenarios)

/-- Scenario map: `{"Name": "name", "Deleted": "deleted"}`. -/
def exMap : List (String × String) := [("Name", "name"), ("Deleted", "deleted")]

/-- The same map with its two entries permuted. -/
def exMapRev : List (String × String) := [("Deleted", "deleted"), ("Name", "name")]

/-- A duplicate-destination map: `{"A": "x", "B": "x"}`. -/
def exDupMap : List (String × String) := [("A", "x"), ("B", "x")]

/-- A source on which `Name` and `Count` read successfully and every other
attribute read raises. -/
def exSource : Source Int Unit := fun n =>
  if n = "Name" then Except.ok (some 7)
  else if n = "Count" then Except.ok (some 42)
  else Except.error ()

/-- A source with `A = 1` and `B = 2` (both reads succeed). -/
def exDupSource : Source Int Unit := fun n =>
  if n = "A" then Except.ok (some 1)
  else if n = "B" then Except.ok (some 2)
  else Except.error ()

/-- A destination with no attribute defined. -/
def exDest : ObjState Int := fun _ => Option.none

/-- C1: after `extract_attributes(to_object, from_object, attrs_map)`, every
destination attribute name appearing in the map is defined on the destination,
bound either to the value read from the corresponding source attribute or to
the Absent Value `None`; no mapped destination attribute is left unset. -/
theorem extract_attributes_defines_every_mapped_name
    (d : ObjState α) (S : Source α ε) (M : List (String × String))
    (f t : String) (hmem : (f, t) ∈ M) :
    ∃ f', (f', t) ∈ M ∧
      ((∃ v, S f' = Except.ok v ∧ extract_attributes d S M t = some v) ∨
        extract_attributes d S M t = some Option.none) := by
  obtain ⟨f', hl⟩ := lastSource_isSome_of_mem M f t hmem
  refine ⟨f', lastSource_mem M t f' hl, ?_⟩
  have happ : extract_attributes d S M t = some (readValue S f') := by
    rw [extract_attributes_apply, hl]
  cases hS : S f' with
  | ok v =>
    refine Or.inl ⟨v, rfl, ?_⟩
    rw [happ]
    simp [readValue, hS]
  | error e =>
    refine Or.inr ?_
    rw [happ]
    simp [readValue, hS]

/-- Witness for C1 at spec scenario 1: the map sends `Deleted` to `deleted`
and reading `Deleted` on the concrete source raises. -/
theorem extract_attributes_defines_every_mapped_name_witness :
    ("Deleted", "deleted") ∈ exMap ∧
      ∃ f', (f', "deleted") ∈ exMap ∧
        ((∃ v, exSource f' = Except.ok v ∧
            extract_attributes exDest exSource exMap "deleted" = some v) ∨
          extract_attributes exDest exSource exMap "deleted" = some Option.none) :=
  ⟨by decide,
    extract_attributes_defines_every_mapped_name exDest exSource exMap
      "Deleted" "deleted" (by decide)⟩

/-- C2: a source-attribute read that raises is swallowed: the monadic run of
the extraction returns normally (no exception escapes), the loop writes the
Absent Value `None` to the corresponding destination attribute, and when the
failing entry is the last one targeting its destination name, the destination
attribute ends equal to `None`. -/
theorem extract_attributes_read_failure_swallowed
    (d : ObjState α) (S : Source α ε) (M : List (String × String))
    (f t : String) (e : ε) (hmem : (f, t) ∈ M) (herr : S f = Except.error e) :
    extract_attributes_run d S M = Except.ok (extract_attributes d S M) ∧
    AttrOp.writeDest t Option.none ∈ extractTrace S M ∧
    (lastSource M t = some f → extract_attributes d S M t = some Option.none) := by
  have hv : readValue S f = Option.none := by simp [readValue, herr]
  refine ⟨extract_attributes_run_ok d S M, ?_, ?_⟩
  · have hw := extractTrace_write_mem S M f t hmem
    rw [hv] at hw
    exact hw
  · intro hl
    rw [extract_attributes_apply, hl]
    simp [hv]

/-- Witness for C2 at spec scenario 1: reading `Deleted` raises, no exception
escapes, and the destination ends with `deleted` bound to `None`. -/
theorem extract_attributes_read_failure_swallowed_witness :
    ("Deleted", "deleted") ∈ exMap ∧ exSource "Deleted" = Except.error () ∧
    extract_attributes_run exDest exSource exMap =
      Except.ok (extract_attributes exDest exSource exMap) ∧
    AttrOp.writeDest "deleted" Option.none ∈ extractTrace exSource exMap ∧
    extract_attributes exDest exSource exMap "deleted" = some Option.none := by
  have h := extract_attributes_read_failure_swallowed exDest exSource exMap
    "Deleted" "deleted" () (by decide) rfl
  exact ⟨by decide, rfl, h.1, h.2.1, h.2.2 rfl⟩

/-- C3: when every mapped source attribute read succeeds, the destination
holds, under each mapped destination name, exactly the value read from the
corresponding source attribute, with no transformation applied. -/
theorem extract_attributes_exact_copy_on_success
    (d : ObjState α) (S : Source α ε) (M : List (String × String))
    (hall : ∀ p ∈ M, ∃ v, S p.1 = Except.ok v)
    (f t : String) (hmem : (f, t) ∈ M) :
    ∃ f' v, (f', t) ∈ M ∧ S f' = Except.ok v ∧
      extract_attributes d S M t = some v := by
  obtain ⟨f', hl⟩ := lastSource_isSome_of_mem M f t hmem
  have hmem' := lastSource_mem M t f' hl
  obtain ⟨v, hv⟩ := hall (f', t) hmem'
  refine ⟨f', v, hmem', hv, ?_⟩
  rw [extract_attributes_apply, hl]
  simp [readValue, hv]

/-- Witness for C3 at spec scenario 2: the map `{"Count": "count"}` on a
source with `Count = 42` ends with `count` bound to `42`. -/
theorem extract_attributes_exact_copy_on_success_witness :
    (∀ p ∈ [(("Count" : String), ("count" : String))], ∃ v, exSource p.1 = Except.ok v) ∧
    ("Count", "count") ∈ [(("Count" : String), ("count" : String))] ∧
    ∃ f' v, (f', "count") ∈ [(("Count" : String), ("count" : String))] ∧
      exSource f' = Except.ok v ∧
      extract_attributes exDest exSource [("Count", "count")] "count" = some v := by
  have hall : ∀ p ∈ [(("Count" : String), ("count" : String))], ∃ v, exSource p.1 = Except.ok v := by
    intro p hp
    rw [List.mem_singleton] at hp
    subst hp
    exact ⟨some 42, rfl⟩
  exact ⟨hall, by decide,
    extract_attributes_exact_copy_on_success exDest exSource _ hall
      "Count" "count" (by decide)⟩

/-- C4: extraction is idempotent: running it twice in a row with the source's
readable state unchanged yields exactly the destination state of running it
once. -/
theorem extract_attributes_idempotent (d : ObjState α) (S : Source α ε)
    (M : List (String × String)) :
    extract_attributes (extract_attributes d S M) S M =
      extract_attributes d S M := by
  funext t
  rw [extract_attributes_apply]
  cases hl : lastSource M t with
  | some f =>
    rw [extract_attributes_apply d S M t, hl]
  | none => rfl

/-- C5: for maps with pairwise-distinct destination names, permuting the
iteration order of the entries does not change the final destination state. -/
theorem extract_attributes_order_independent (d : ObjState α) (S : Source α ε)
    (M M' : List (String × String))
    (hperm : M.Perm M')
    (hnodup : (M.map Prod.snd).Nodup) :
    extract_attributes d S M = extract_attributes d S M' := by
  have hnodup' : (M'.map Prod.snd).Nodup := (hperm.map Prod.snd).nodup hnodup
  funext t
  rw [extract_attributes_apply, extract_attributes_apply]
  cases hl : lastSource M t with
  | some f =>
    have hmem : (f, t) ∈ M := lastSource_mem M t f hl
    have hmem' : (f, t) ∈ M' := hperm.mem_iff.mp hmem
    rw [(lastSource_eq_some_iff M' t f hnodup').mpr hmem']
  | none =>
    have hnot : t ∉ M.map Prod.snd := (lastSource_eq_none_iff M t).mp hl
    have hnot' : t ∉ M'.map Prod.snd :=
      fun hm => hnot ((hperm.map Prod.snd).mem_iff.mpr hm)
    rw [(lastSource_eq_none_iff M' t).mpr hnot']

/-- Witness for C5: swapping the two entries of the scenario map yields the
same final destination state. -/
theorem extract_attributes_order_independent_witness :
    exMap.Perm exMapRev ∧ (exMap.map Prod.snd).Nodup ∧
    extract_attributes exDest exSource exMap =
      extract_attributes exDest exSource exMapRev :=
  ⟨by decide, by decide,
    extract_attributes_order_independent exDest exSource exMap exMapRev
      (by decide) (by decide)⟩

/-- C6: extraction mutates only the mapped destination attributes: every
destination attribute outside the map's destination names keeps its prior
value; the source-attribute reads are exactly the map's keys in order, so with
unique keys each mapped source attribute is read at most once and never
retried; the trace contains no write to the source object; and extraction with
the empty map leaves the destination state entirely unchanged. -/
theorem extract_attributes_frame
    (d : ObjState α) (S : Source α ε) (M : List (String × String)) :
    (∀ t, t ∉ M.map Prod.snd → extract_attributes d S M t = d t) ∧
    traceReads (extractTrace S M) = M.map Prod.fst ∧
    ((M.map Prod.fst).Nodup →
      ∀ f, (traceReads (extractTrace S M)).count f ≤ 1) ∧
    (∀ n v, AttrOp.writeSource n v ∉ extractTrace S M) ∧
    extract_attributes d S ([] : List (String × String)) = d := by
  refine ⟨?_, extractTrace_reads S M, ?_, extractTrace_no_source_write S M, rfl⟩
  · intro t ht
    rw [extract_attributes_apply, (lastSource_eq_none_iff M t).mpr ht]
  · intro hnodup f
    rw [extractTrace_reads]
    exact List.nodup_iff_count_le_one.mp hnodup f

/-- Witness for C6 on the scenario map: the untouched attribute `missing`
keeps its prior value, the read sequence is exactly the two keys, each key is
read once, and no source write appears in the trace. -/
theorem extract_attributes_frame_witness :
    ("missing" ∉ exMap.map Prod.snd) ∧
    extract_attributes exDest exSource exMap "missing" = exDest "missing" ∧
    traceReads (extractTrace exSource exMap) = ["Name", "Deleted"] ∧
    (exMap.map Prod.fst).Nodup ∧
    (traceReads (extractTrace exSource exMap)).count "Name" ≤ 1 ∧
    (∀ v, AttrOp.writeSource "Name" v ∉ extractTrace exSource exMap) ∧
    extract_attributes exDest exSource ([] : List (String × String)) = exDest := by
  have h := extract_attributes_frame exDest exSource exMap
  refine ⟨by decide, h.1 "missing" (by decide), ?_, by decide,
    h.2.2.1 (by decide) "Name", fun v => h.2.2.2.1 "Name" v, h.2.2.2.2⟩
  rw [h.2.1]
  rfl

/-- C7: with duplicate destination names the final value of the shared
destination attribute is the one computed for the map's last entry targeting
it (last-write-wins in iteration order), and no error is raised for the
duplicate: the run still returns normally. -/
theorem extract_attributes_duplicate_last_write_wins
    (d : ObjState α) (S : Source α ε) (M : List (String × String))
    (f t : String) (hlast : lastSource M t = some f) :
    extract_attributes_run d S M = Except.ok (extract_attributes d S M) ∧
    extract_attributes d S M t = some (readValue S f) := by
  refine ⟨extract_attributes_run_ok d S M, ?_⟩
  rw [extract_attributes_apply, hlast]

/-- Witness for C7 at spec scenario 4: `M = {"A": "x", "B": "x"}` with
`S.A = 1`, `S.B = 2` ends with `x` bound to `2`, the value of the entry
applied last, and no error is raised. -/
theorem extract_attributes_duplicate_last_write_wins_witness :
    lastSource exDupMap "x" = some "B" ∧
    extract_attributes exDest exDupSource exDupMap "x" = some (some 2) ∧
    extract_attributes_run exDest exDupSource exDupMap =
      Except.ok (extract_attributes exDest exDupSource exDupMap) := by
  have h := extract_attributes_duplicate_last_write_wins exDest exDupSource
    exDupMap "B" "x" (by decide)
  exact ⟨by decide, h.2, h.1⟩

/-- C8: `OlAccountType` construction fails outright on an unrecognized
integer: for every integer that is not the declared value of one of the six
members, `OlAccountType(n)` raises `ValueError`, and `Account.account_type`
propagates that failure when the underlying COM `AccountType` value is
unrecognized; on each declared value (0 through 5) construction returns the
corresponding member. -/
theorem account_type_unrecognized_integer_raises (n : Int)
    (h : ∀ a : OlAccountType, OlAccountType.value a ≠ n) :
    OlAccountType.ofValue n = Except.error PyExc.ValueError ∧
    Account.account_type ⟨n⟩ = Except.error PyExc.ValueError ∧
    (∀ a : OlAccountType,
      OlAccountType.ofValue (OlAccountType.value a) = Except.ok a) := by
  have h0 : n ≠ 0 := Ne.symm (h OlAccountType.EXCHANGE)
  have h1 : n ≠ 1 := Ne.symm (h OlAccountType.IMAP)
  have h2 : n ≠ 2 := Ne.symm (h OlAccountType.POP3)
  have h3 : n ≠ 3 := Ne.symm (h OlAccountType.HTTP)
  have h4 : n ≠ 4 := Ne.symm (h OlAccountType.EAS)
  have h5 : n ≠ 5 := Ne.symm (h OlAccountType.OTHER_ACCOUNT)
  refine ⟨?_, ?_, fun a => by cases a <;> rfl⟩
  · simp [OlAccountType.ofValue, h0, h1, h2, h3, h4, h5]
  · simp [Account.account_type, OlAccountType.ofValue, h0, h1, h2, h3, h4, h5]

/-- Witness for C8 at the unrecognized integer 7. -/
theorem account_type_unrecognized_integer_raises_witness :
    (∀ a : OlAccountType, OlAccountType.value a ≠ 7) ∧
    OlAccountType.ofValue 7 = Except.error PyExc.ValueError ∧
    Account.account_type ⟨7⟩ = Except.error PyExc.ValueError := by
  have h := account_type_unrecognized_integer_raises 7
    (by intro a; cases a <;> decide)
  exact ⟨by intro a; cases a <;> decide, h.1, h.2.1⟩

/-- C9: the inline extraction loop of `Inbox.__init__` (read the COM
attribute, set it on `self` on success, silently skip on any failure)
produces, for every source object, the same final attribute state as
`extract_attributes` called with the same attribute map, because every mapped
destination attribute is pre-initialized to `None` immediately before the
loop, making skip-on-failure equivalent to write-`None`-on-failure. -/
theorem inbox_init_loop_equals_extract_attributes
    (d : ObjState α) (S : Source α ε) :
    inboxLoop (preInit d inboxInitNames) S inboxAllAttrs =
      extract_attributes (preInit d inboxInitNames) S inboxAllAttrs := by
  apply inboxLoop_eq_extract
  · decide
  · intro t ht
    apply preInit_mem
    exact (by decide :
      ∀ t ∈ inboxAllAttrs.map Prod.snd, t ∈ inboxInitNames) t ht

/-- C10: `Folder.__setitem__` and `Folder.__delitem__` unconditionally raise
`NotImplementedError` for every folder, index, and value, so the eagerly
fetched item list can never be modified or shrunk through indexed assignment
or deletion. -/
theorem folder_setitem_delitem_raise (F : Folder α) (i : Int) (v : α) :
    F.setitem i v =
      Except.error (PyExc.NotImplementedError "Setting/Deleting not implemented.") ∧
    F.delitem i =
      Except.error (PyExc.NotImplementedError "Setting/Deleting not implemented.") :=
  ⟨rfl, rfl⟩
